import Mathlib

/-!
Verification of the yoneda memory allocators: a shallow embedding of the
alignment utilities (`yoneda_memory.c`), the stack allocator (`stack.cpp`),
the arena allocator (`yoneda_arena.c`) and the allocation manager
(`memory_manager.hpp` / `memory_manager.cpp`), together with proofs and
refutations of the specified properties.

Modelling conventions:
- `usize` values and addresses are `Nat`.  Pointer values are plain numbers;
  the null pointer is `0`.
- Unsigned subtraction, which can underflow and is the operation several
  claims hinge on, is modelled explicitly: `usize_sub` is the wrapping
  subtraction `a - b (mod 2^64)` of C, and `yo_u64_no_wrap_sub` is the
  clamped subtraction from `yoneda_math.h`.  Additions are modelled as plain
  `Nat` addition; theorems carry the hypotheses (buffer fits the address
  space) under which the C additions cannot wrap.
- The backing buffer is a byte memory `Nat → Nat` indexed by absolute
  address.  `usize` header fields are stored and loaded as 8 little-endian
  bytes (`store64` / `load64`), matching the in-memory layout of
  `StackHeader` on the 64-bit targets the tests pin down
  (`sizeof(usize) == 8`, hence `sizeof(StackHeader) == 24`,
  `alignof(StackHeader) == 8`).
- `Status` is `Bool` (`YO_STATUS_OK = true`, `YO_STATUS_FAILED = false`).
-/

namespace Yoneda

/-- Wrapping 64-bit subtraction: the value of the C expression `a - b` at
type `usize` (for `a b < 2^64`). -/
def usize_sub (a b : Nat) : Nat :=
  (a + (2 ^ 64 - b % 2 ^ 64)) % 2 ^ 64

/-- From `yoneda_math.h`:
`u64 c = a - b; return (c <= a) ? c : 0;` — subtraction clamped to zero. -/
def yo_u64_no_wrap_sub (a b : Nat) : Nat :=
  let c := usize_sub a b
  if c ≤ a then c else 0

/-- From `yoneda_core.h`: `(((n) > 0) && !((n) & (((n)) - 1)))`. -/
def yo_is_pow_of_two (n : Nat) : Bool :=
  decide (0 < n) && (n &&& (n - 1) == 0)

/-- From `yoneda_memory.c`, `yo_padding_with_header`: first the padding
aligning `ptr_addr` to `alignment`, then the padding aligning the resulting
address to `header_alignment`, then `header_size` is added.  The source
computes `x & (alignment - 1)`, equal to `x % alignment` for power-of-two
alignments. -/
def yo_padding_with_header (ptr_addr alignment header_size header_alignment : Nat) : Nat :=
  let mod_align := ptr_addr &&& (alignment - 1)
  let padding := if mod_align ≠ 0 then alignment - mod_align else 0
  let ptr_addr2 := ptr_addr + padding
  let mod_header := ptr_addr2 &&& (header_alignment - 1)
  let padding2 := if mod_header ≠ 0 then padding + (header_alignment - mod_header) else padding
  padding2 + header_size

/-- From `yoneda_memory.c`, `yo_align_forward`. -/
def yo_align_forward (ptr_addr alignment : Nat) : Nat :=
  let mod_align := ptr_addr &&& (alignment - 1)
  if mod_align ≠ 0 then ptr_addr + (alignment - mod_align) else ptr_addr

/-- Byte memory: `yo_memory_set(memory, size_bytes, fill)` writes the fill
byte over `[addr, addr + size)`. -/
def yo_memory_set (mem : Nat → Nat) (addr size_bytes fill : Nat) : Nat → Nat :=
  fun x => if addr ≤ x ∧ x < addr + size_bytes then fill % 256 else mem x

/-- Byte memory: `yo_memory_copy(dst, src, size_bytes)`. -/
def yo_memory_copy (mem : Nat → Nat) (dst src size_bytes : Nat) : Nat → Nat :=
  fun x => if dst ≤ x ∧ x < dst + size_bytes then mem (src + (x - dst)) else mem x

/-- Store a `usize` value as 8 little-endian bytes at address `a`. -/
def store64 (mem : Nat → Nat) (a v : Nat) : Nat → Nat :=
  fun x => if a ≤ x ∧ x < a + 8 then v / 256 ^ (x - a) % 256 else mem x

/-- Load a `usize` value from 8 little-endian bytes at address `a`. -/
def load64 (mem : Nat → Nat) (a : Nat) : Nat :=
  mem a
  + 256 * (mem (a + 1)
  + 256 * (mem (a + 2)
  + 256 * (mem (a + 3)
  + 256 * (mem (a + 4)
  + 256 * (mem (a + 5)
  + 256 * (mem (a + 6)
  + 256 * (mem (a + 7))))))))

/-- `sizeof(StackHeader)`: three `usize` fields. -/
def stackHeaderSize : Nat := 24

/-- `alignof(StackHeader)`. -/
def stackHeaderAlign : Nat := 8

/-- Field offset of `StackHeader::padding`. -/
def hdrPaddingOff : Nat := 0

/-- Field offset of `StackHeader::capacity`. -/
def hdrCapacityOff : Nat := 8

/-- Field offset of `StackHeader::previous_offset`. -/
def hdrPrevOff : Nat := 16

/-- Write a `StackHeader{padding, capacity, previous_offset}` at `hdr`. -/
def writeStackHeader (mem : Nat → Nat) (hdr padding capacity previous_offset : Nat) : Nat → Nat :=
  store64 (store64 (store64 mem (hdr + hdrPaddingOff) padding)
    (hdr + hdrCapacityOff) capacity) (hdr + hdrPrevOff) previous_offset

/-- The stack allocator state from `stack.hpp`, extended with the byte
contents of the managed buffer (`mem x` is the byte at absolute address
`x`; the allocator only touches `[buf, buf + capacity)`). -/
structure Stack where
  buf : Nat
  capacity : Nat
  offset : Nat
  previous_offset : Nat
  mem : Nat → Nat

/-- `Stack::top`: `psh_ptr_add(this->buf, this->previous_offset)`. -/
def Stack.top (s : Stack) : Nat :=
  s.buf + s.previous_offset

/-- `Stack::alloc_align(size_bytes, alignment)` from `stack.cpp`.  Returns
the new block pointer (`0` on failure) and the updated state. -/
def Stack.alloc_align (s : Stack) (size_bytes alignment : Nat) : Nat × Stack :=
  if s.capacity = 0 ∨ size_bytes = 0 then (0, s)
  else
    let free_memory := s.buf + s.offset
    let padding := yo_padding_with_header free_memory alignment stackHeaderSize stackHeaderAlign
    let required_bytes := padding + size_bytes
    if required_bytes > usize_sub s.capacity s.offset then (0, s)
    else
      let new_block := free_memory + padding
      let header_addr := usize_sub new_block stackHeaderSize
      let mem1 := writeStackHeader s.mem header_addr padding size_bytes s.previous_offset
      let mem2 := yo_memory_set mem1 new_block size_bytes 0
      (new_block,
        { s with
          previous_offset := s.offset + padding
          offset := s.offset + padding + size_bytes
          mem := mem2 })

/-- `Stack::pop` from `stack.cpp`: reads the header behind the top block
and rewinds the offsets.  The offset subtraction is the plain wrapping
`usize` subtraction of the source. -/
def Stack.pop (s : Stack) : Bool × Stack :=
  if s.previous_offset = 0 then (false, s)
  else
    let top_addr := s.buf + s.previous_offset
    let header_addr := usize_sub top_addr stackHeaderSize
    let header_padding := load64 s.mem (header_addr + hdrPaddingOff)
    let header_previous_offset := load64 s.mem (header_addr + hdrPrevOff)
    (true,
      { s with
        offset := usize_sub s.previous_offset header_padding
        previous_offset := header_previous_offset })

/-- `Stack::clear_at(block)` from `stack.cpp`: validates that `block` is
non-null and inside `[buf, buf + previous_offset]`, then rewinds using the
clamped subtractions `no_wrap_sub(no_wrap_sub(block, header->padding), buf)`. -/
def Stack.clear_at (s : Stack) (block : Nat) : Bool × Stack :=
  if block = 0 then (false, s)
  else if block < s.buf ∨ block > s.buf + s.previous_offset then (false, s)
  else
    let header_addr := usize_sub block stackHeaderSize
    let header_padding := load64 s.mem (header_addr + hdrPaddingOff)
    let header_previous_offset := load64 s.mem (header_addr + hdrPrevOff)
    (true,
      { s with
        offset := yo_u64_no_wrap_sub (yo_u64_no_wrap_sub block header_padding) s.buf
        previous_offset := header_previous_offset })

/-- `Stack::clear` from `stack.hpp`. -/
def Stack.clear (s : Stack) : Stack :=
  { s with offset := 0, previous_offset := 0 }

/-- `Stack::realloc_align(block, new_size_bytes, alignment)` from
`stack.cpp`, exactly as written there: the in-place path
(`block == this->top()`) sets `offset = previous_offset + new_size_bytes`
and returns `block` with no further checks; otherwise the pointer is
validated, the old capacity is read from the header behind `block`, and a
fresh block is allocated and filled with
`min(header->capacity, new_size_bytes)` copied bytes.  A failing inner
`alloc_align` would trip the non-null assertion inside `memory_copy`; the
model returns the null result in that case. -/
def Stack.realloc_align (s : Stack) (block new_size_bytes alignment : Nat) : Nat × Stack :=
  if new_size_bytes = 0 then
    (0, (s.clear_at block).2)
  else if block = s.top then
    (block, { s with offset := s.previous_offset + new_size_bytes })
  else if block < s.buf ∨ block ≥ s.buf + s.capacity then (0, s)
  else if block ≥ s.buf + s.offset then (0, s)
  else
    let header_addr := usize_sub block stackHeaderSize
    let header_capacity := load64 s.mem (header_addr + hdrCapacityOff)
    if new_size_bytes > usize_sub s.capacity s.offset then (0, s)
    else
      let res := s.alloc_align new_size_bytes alignment
      if res.1 = 0 then (0, res.2)
      else
        let copy_size := min header_capacity new_size_bytes
        (res.1, { res.2 with mem := yo_memory_copy res.2.mem res.1 block copy_size })

/-- `Stack::header_of(block)` from `stack.cpp`, as written there: the
validity checks of the source followed by
`u8 const* block_header = block + sizeof(StackHeader)`.  Returns the
address the source casts to a header pointer, `0` for null. -/
def Stack.header_of (s : Stack) (block : Nat) : Nat :=
  let memory_start := s.buf
  let block_header := block + stackHeaderSize
  let valid : Bool :=
    (block != 0)
    && (memory_start ≤ block)
    && (block ≤ memory_start + s.capacity)
    && (block ≤ memory_start + s.previous_offset)
    && (memory_start ≤ block_header)
  if valid then block_header else 0

/-- `Stack::size_of(block)` from `stack.cpp`: `header->capacity` through
`header_of`, `0` when the lookup fails. -/
def Stack.size_of (s : Stack) (block : Nat) : Nat :=
  let header := s.header_of block
  if header = 0 then 0 else load64 s.mem (header + hdrCapacityOff)

/-- The arena allocator state from `yoneda_arena.h`, with the byte contents
of its buffer. -/
structure yo_Arena where
  buf : Nat
  capacity : Nat
  offset : Nat
  mem : Nat → Nat

/-- `yo_arena_alloc_align` from `yoneda_arena.c`.  The `arena == NULL`
branch does not arise: the model passes the arena by value.  Returns the
new block pointer (`0` on failure) and the updated arena. -/
def yo_arena_alloc_align (arena : yo_Arena) (size_bytes alignment : Nat) : Nat × yo_Arena :=
  if size_bytes = 0 then (0, arena)
  else
    let memory_addr := arena.buf
    let new_block_addr := yo_align_forward (memory_addr + arena.offset) alignment
    if new_block_addr + size_bytes > arena.capacity + memory_addr then (0, arena)
    else
      (new_block_addr,
        { arena with
          offset := size_bytes + new_block_addr - memory_addr
          mem := yo_memory_set arena.mem new_block_addr size_bytes 0 })

/-- The allocation manager state from `memory_manager.hpp`. -/
structure MemoryManager where
  allocation_count : Nat
  allocator : Stack

/-- `MemoryManager::realloc<T>(block, new_length)` from
`memory_manager.hpp`, after expanding the `Stack::realloc<T>` template:
`size_bytes = sizeof(T) * new_length` and `alignment = alignof(T)` are
taken as the already-multiplied byte arguments.  The counter is bumped
exactly when the returned pointer differs from `block`. -/
def MemoryManager.realloc (m : MemoryManager) (block new_size_bytes alignment : Nat) :
    Nat × MemoryManager :=
  let res := m.allocator.realloc_align block new_size_bytes alignment
  if res.1 ≠ block then
    (res.1, { allocation_count := m.allocation_count + 1, allocator := res.2 })
  else
    (res.1, { allocation_count := m.allocation_count, allocator := res.2 })

/-- `MAP_FAILED`, i.e. `(void*)-1`. -/
def MAP_FAILED : Nat := 2 ^ 64 - 1

/-- The `YO_OS_UNIX` branch of `yo_memory_virtual_alloc` from
`yoneda_memory.c` (with the default `YO_ABORT_AT_MEMORY_ERROR == 0`),
parametrized by the result of the external `mmap` call:
`memory = mmap(...); if (memory != MAP_FAILED) { memory = NULL; } return memory;`. -/
def yo_memory_virtual_alloc_unix (mmap_result : Nat) : Nat :=
  if mmap_result ≠ MAP_FAILED then 0 else mmap_result

/-- A sequence of `alloc_align` calls; the flag records whether every call
returned a non-null block. -/
def Stack.allocSeq (s : Stack) : List (Nat × Nat) → Bool × Stack
  | [] => (true, s)
  | (size_bytes, alignment) :: rest =>
    let res := s.alloc_align size_bytes alignment
    let rec' := Stack.allocSeq res.2 rest
    ((res.1 != 0) && rec'.1, rec'.2)

/-- `n` consecutive `pop` calls (expressed as `n` pops followed by one
more); the flag records whether every pop succeeded. -/
def Stack.popN (s : Stack) : Nat → Bool × Stack
  | 0 => (true, s)
  | n + 1 =>
    let res := Stack.popN s n
    let res2 := res.2.pop
    (res.1 && res2.1, res2.2)

/-! ### Arithmetic lemmas -/

theorem usize_sub_eq_sub {a b : Nat} (hb : b ≤ a) (ha : a < 2 ^ 64) :
    usize_sub a b = a - b := by
  unfold usize_sub
  have hb64 : b < 2 ^ 64 := lt_of_le_of_lt hb ha
  rw [Nat.mod_eq_of_lt hb64]
  have h1 : a + (2 ^ 64 - b) = 2 ^ 64 + (a - b) := by omega
  rw [h1, Nat.add_mod_left, Nat.mod_eq_of_lt (by omega)]

theorem no_wrap_sub_le (a b : Nat) : yo_u64_no_wrap_sub a b ≤ a := by
  simp only [yo_u64_no_wrap_sub]
  split <;> omega

theorem no_wrap_sub_eq {a b : Nat} (ha : a < 2 ^ 64) (hb : b < 2 ^ 64) :
    yo_u64_no_wrap_sub a b = a - b := by
  simp only [yo_u64_no_wrap_sub, usize_sub]
  rw [Nat.mod_eq_of_lt hb]
  rcases Nat.lt_or_ge a b with h | h
  · have h1 : a + (2 ^ 64 - b) < 2 ^ 64 := by omega
    rw [Nat.mod_eq_of_lt h1]
    have h2 : ¬ (a + (2 ^ 64 - b) ≤ a) := by omega
    simp only [h2, if_false]
    omega
  · have h1 : a + (2 ^ 64 - b) = 2 ^ 64 + (a - b) := by omega
    rw [h1, Nat.add_mod_left, Nat.mod_eq_of_lt (show a - b < 2 ^ 64 by omega)]
    simp [Nat.sub_le]

theorem padding_ge_header (p a hs ha : Nat) :
    hs ≤ yo_padding_with_header p a hs ha := by
  simp only [yo_padding_with_header]
  split <;> split <;> omega

theorem padding_le (p a hs ha : Nat) :
    yo_padding_with_header p a hs ha ≤ a + ha + hs := by
  simp only [yo_padding_with_header]
  split <;> split <;> omega

/-! ### Byte-memory lemmas -/

theorem store64_out {m : Nat → Nat} {a v x : Nat} (hx : x < a ∨ a + 8 ≤ x) :
    store64 m a v x = m x := by
  simp only [store64]
  rw [if_neg]
  omega

theorem yo_memory_set_out {m : Nat → Nat} {addr n f x : Nat}
    (hx : x < addr ∨ addr + n ≤ x) :
    yo_memory_set m addr n f x = m x := by
  simp only [yo_memory_set]
  rw [if_neg]
  omega

theorem yo_memory_copy_out {m : Nat → Nat} {dst src n x : Nat}
    (hx : x < dst ∨ dst + n ≤ x) :
    yo_memory_copy m dst src n x = m x := by
  simp only [yo_memory_copy]
  rw [if_neg]
  omega

theorem load64_congr {m1 m2 : Nat → Nat} {a : Nat}
    (h : ∀ x, a ≤ x → x < a + 8 → m1 x = m2 x) :
    load64 m1 a = load64 m2 a := by
  simp only [load64]
  rw [h a (Nat.le_refl a) (by omega), h (a + 1) (by omega) (by omega),
    h (a + 2) (by omega) (by omega), h (a + 3) (by omega) (by omega),
    h (a + 4) (by omega) (by omega), h (a + 5) (by omega) (by omega),
    h (a + 6) (by omega) (by omega), h (a + 7) (by omega) (by omega)]

/-- Little-endian digit reconstruction, in the Horner shape of `load64`. -/
def hornerBytes : Nat → Nat → Nat
  | 0, _ => 0
  | k + 1, v => v % 256 + 256 * hornerBytes k (v / 256)

theorem hornerBytes_eq (k : Nat) : ∀ v : Nat, hornerBytes k v = v % 256 ^ k := by
  induction k with
  | zero => intro v; simp [hornerBytes, Nat.mod_one]
  | succ k ih =>
    intro v
    have hmul : (256 : Nat) * 256 ^ k = 256 ^ (k + 1) := by
      rw [pow_succ, Nat.mul_comm]
    calc hornerBytes (k + 1) v = v % 256 + 256 * (v / 256 % 256 ^ k) := by
          rw [hornerBytes, ih]
      _ = v % (256 * 256 ^ k) := (Nat.mod_mul).symm
      _ = v % 256 ^ (k + 1) := by rw [hmul]

theorem load64_store64_same (m : Nat → Nat) (a v : Nat) :
    load64 (store64 m a v) a = v % 2 ^ 64 := by
  have hb : ∀ i, i < 8 → store64 m a v (a + i) = v / 256 ^ i % 256 := by
    intro i hi
    simp only [store64]
    rw [if_pos ⟨by omega, by omega⟩, Nat.add_sub_cancel_left]
  have h64 : (2 : Nat) ^ 64 = 256 ^ 8 := by norm_num
  have hb0 : store64 m a v a = v / 256 ^ 0 % 256 := by
    have := hb 0 (by omega)
    simpa using this
  have hload : load64 (store64 m a v) a = hornerBytes 8 v := by
    simp only [load64]
    rw [hb0, hb 1 (by omega), hb 2 (by omega), hb 3 (by omega), hb 4 (by omega),
      hb 5 (by omega), hb 6 (by omega), hb 7 (by omega)]
    simp [hornerBytes, Nat.div_div_eq_div_mul]
  rw [hload, hornerBytes_eq, h64]

theorem load64_store64_out {m : Nat → Nat} {a v b : Nat}
    (h : a + 8 ≤ b ∨ b + 8 ≤ a) :
    load64 (store64 m a v) b = load64 m b := by
  refine load64_congr (fun x hx1 hx2 => store64_out ?_)
  omega

theorem load64_yo_memory_set_out {m : Nat → Nat} {addr n f b : Nat}
    (h : addr + n ≤ b ∨ b + 8 ≤ addr) :
    load64 (yo_memory_set m addr n f) b = load64 m b := by
  refine load64_congr (fun x hx1 hx2 => yo_memory_set_out ?_)
  omega

theorem load64_writeStackHeader_padding (m : Nat → Nat) (hdr p c po : Nat) :
    load64 (writeStackHeader m hdr p c po) (hdr + hdrPaddingOff) = p % 2 ^ 64 := by
  simp only [writeStackHeader, hdrPaddingOff, hdrCapacityOff, hdrPrevOff, Nat.add_zero]
  rw [load64_store64_out (by omega), load64_store64_out (by omega), load64_store64_same]

theorem load64_writeStackHeader_capacity (m : Nat → Nat) (hdr p c po : Nat) :
    load64 (writeStackHeader m hdr p c po) (hdr + hdrCapacityOff) = c % 2 ^ 64 := by
  simp only [writeStackHeader, hdrPaddingOff, hdrCapacityOff, hdrPrevOff, Nat.add_zero]
  rw [load64_store64_out (by omega), load64_store64_same]

theorem load64_writeStackHeader_prev (m : Nat → Nat) (hdr p c po : Nat) :
    load64 (writeStackHeader m hdr p c po) (hdr + hdrPrevOff) = po % 2 ^ 64 := by
  simp only [writeStackHeader, hdrPaddingOff, hdrCapacityOff, hdrPrevOff, Nat.add_zero]
  rw [load64_store64_same]

/-! ### Characterization of a successful `alloc_align` -/

/-- The padding `alloc_align` computes for the current state. -/
def allocPadding (s : Stack) (alignment : Nat) : Nat :=
  yo_padding_with_header (s.buf + s.offset) alignment stackHeaderSize stackHeaderAlign

theorem alloc_align_success {s : Stack} {sz al : Nat}
    (h : (s.alloc_align sz al).1 ≠ 0) :
    (s.alloc_align sz al).1 = s.buf + s.offset + allocPadding s al ∧
    (s.alloc_align sz al).2 =
      { s with
        previous_offset := s.offset + allocPadding s al
        offset := s.offset + allocPadding s al + sz
        mem := yo_memory_set
          (writeStackHeader s.mem
            (usize_sub (s.buf + s.offset + allocPadding s al) stackHeaderSize)
            (allocPadding s al) sz s.previous_offset)
          (s.buf + s.offset + allocPadding s al) sz 0 } ∧
    allocPadding s al + sz ≤ usize_sub s.capacity s.offset ∧
    sz ≠ 0 ∧ s.capacity ≠ 0 := by
  by_cases h1 : s.capacity = 0 ∨ sz = 0
  · simp [Stack.alloc_align, h1] at h
  · by_cases h2 :
      allocPadding s al + sz > usize_sub s.capacity s.offset
    · simp only [Stack.alloc_align, allocPadding] at h
      rw [if_neg h1] at h
      simp only [allocPadding] at h2
      rw [if_pos h2] at h
      simp at h
    · simp only [Stack.alloc_align, allocPadding] at h ⊢
      rw [if_neg h1] at h ⊢
      simp only [allocPadding] at h2
      rw [if_neg h2] at h ⊢
      refine ⟨rfl, rfl, ?_, ?_, ?_⟩
      · omega
      · intro hsz; exact h1 (Or.inr hsz)
      · intro hc; exact h1 (Or.inl hc)

theorem alloc_align_offset_le {s : Stack} {sz al : Nat}
    (h : (s.alloc_align sz al).1 ≠ 0)
    (hcap : s.capacity < 2 ^ 64) (ho : s.offset ≤ s.capacity) :
    (s.alloc_align sz al).2.offset ≤ s.capacity := by
  obtain ⟨-, hst, hreq, -, -⟩ := alloc_align_success h
  rw [hst]
  rw [usize_sub_eq_sub ho hcap] at hreq
  simp only []
  omega

theorem alloc_align_mem_below {s : Stack} {sz al : Nat}
    (h : (s.alloc_align sz al).1 ≠ 0)
    (hb : s.buf + s.capacity < 2 ^ 64) (ho : s.offset ≤ s.capacity) :
    ∀ x, x < s.buf + s.offset → (s.alloc_align sz al).2.mem x = s.mem x := by
  obtain ⟨-, hst, hreq, -, -⟩ := alloc_align_success h
  intro x hx
  rw [hst]
  have hcap : s.capacity < 2 ^ 64 := by omega
  rw [usize_sub_eq_sub ho hcap] at hreq
  have hpad : stackHeaderSize ≤ allocPadding s al :=
    padding_ge_header (s.buf + s.offset) al stackHeaderSize stackHeaderAlign
  have hnb : s.buf + s.offset + allocPadding s al < 2 ^ 64 := by omega
  have hhdr : usize_sub (s.buf + s.offset + allocPadding s al) stackHeaderSize
      = s.buf + s.offset + allocPadding s al - stackHeaderSize :=
    usize_sub_eq_sub (by omega) hnb
  simp only []
  rw [yo_memory_set_out (Or.inl (by omega))]
  simp only [writeStackHeader, hhdr]
  rw [store64_out (Or.inl (by simp only [stackHeaderSize, hdrPrevOff] at *; omega)),
    store64_out (Or.inl (by simp only [stackHeaderSize, hdrCapacityOff] at *; omega)),
    store64_out (Or.inl (by simp only [stackHeaderSize, hdrPaddingOff] at *; omega))]

theorem alloc_align_header_loads {s : Stack} {sz al : Nat}
    (h : (s.alloc_align sz al).1 ≠ 0)
    (hb : s.buf + s.capacity < 2 ^ 64) (ho : s.offset ≤ s.capacity)
    (hp : s.previous_offset < 2 ^ 64) :
    load64 (s.alloc_align sz al).2.mem
        (usize_sub (s.buf + s.offset + allocPadding s al) stackHeaderSize + hdrPaddingOff)
      = allocPadding s al ∧
    load64 (s.alloc_align sz al).2.mem
        (usize_sub (s.buf + s.offset + allocPadding s al) stackHeaderSize + hdrPrevOff)
      = s.previous_offset := by
  obtain ⟨-, hst, hreq, -, -⟩ := alloc_align_success h
  have hcap : s.capacity < 2 ^ 64 := by omega
  rw [usize_sub_eq_sub ho hcap] at hreq
  have hpad : stackHeaderSize ≤ allocPadding s al :=
    padding_ge_header (s.buf + s.offset) al stackHeaderSize stackHeaderAlign
  have hpadle : allocPadding s al ≤ al + stackHeaderAlign + stackHeaderSize :=
    padding_le (s.buf + s.offset) al stackHeaderSize stackHeaderAlign
  have hnb : s.buf + s.offset + allocPadding s al < 2 ^ 64 := by omega
  have hhdr : usize_sub (s.buf + s.offset + allocPadding s al) stackHeaderSize
      = s.buf + s.offset + allocPadding s al - stackHeaderSize :=
    usize_sub_eq_sub (by omega) hnb
  rw [hst]
  simp only [hhdr]
  constructor
  · rw [load64_yo_memory_set_out
      (Or.inr (by simp only [stackHeaderSize, hdrPaddingOff] at *; omega))]
    rw [load64_writeStackHeader_padding]
    have : allocPadding s al < 2 ^ 64 := by
      simp only [stackHeaderSize, stackHeaderAlign] at hpadle; omega
    exact Nat.mod_eq_of_lt this
  · rw [load64_yo_memory_set_out
      (Or.inr (by simp only [stackHeaderSize, hdrPrevOff] at *; omega))]
    rw [load64_writeStackHeader_prev]
    exact Nat.mod_eq_of_lt hp

/-! ### LIFO round-trip development -/

theorem pop_state (s : Stack) :
    s.pop.2.mem = s.mem ∧ s.pop.2.buf = s.buf ∧ s.pop.2.capacity = s.capacity := by
  simp only [Stack.pop]
  split <;> exact ⟨rfl, rfl, rfl⟩

theorem popN_state (s : Stack) (n : Nat) :
    (Stack.popN s n).2.mem = s.mem ∧ (Stack.popN s n).2.buf = s.buf ∧
    (Stack.popN s n).2.capacity = s.capacity := by
  induction n with
  | zero => exact ⟨rfl, rfl, rfl⟩
  | succ n ih =>
    obtain ⟨h1, h2, h3⟩ := ih
    obtain ⟨g1, g2, g3⟩ := pop_state (Stack.popN s n).2
    exact ⟨g1.trans h1, g2.trans h2, g3.trans h3⟩

theorem allocSeq_cons (s : Stack) (sz al : Nat) (rest : List (Nat × Nat)) :
    Stack.allocSeq s ((sz, al) :: rest)
      = ((((s.alloc_align sz al).1 != 0)
            && (Stack.allocSeq (s.alloc_align sz al).2 rest).1),
         (Stack.allocSeq (s.alloc_align sz al).2 rest).2) := rfl

theorem allocSeq_props (rs : List (Nat × Nat)) : ∀ s : Stack,
    (Stack.allocSeq s rs).1 = true →
    s.buf + s.capacity < 2 ^ 64 → s.offset ≤ s.capacity →
    (Stack.allocSeq s rs).2.buf = s.buf ∧
    (Stack.allocSeq s rs).2.capacity = s.capacity ∧
    s.offset ≤ (Stack.allocSeq s rs).2.offset ∧
    (Stack.allocSeq s rs).2.offset ≤ s.capacity ∧
    (∀ x, x < s.buf + s.offset → (Stack.allocSeq s rs).2.mem x = s.mem x) := by
  induction rs with
  | nil =>
    intro s _ _ ho
    exact ⟨rfl, rfl, Nat.le_refl _, ho, fun x _ => rfl⟩
  | cons r rest ih =>
    obtain ⟨sz, al⟩ := r
    intro s hflag hb ho
    rw [allocSeq_cons] at hflag ⊢
    simp only [Bool.and_eq_true, bne_iff_ne, ne_eq] at hflag
    obtain ⟨hp, hrest⟩ := hflag
    obtain ⟨-, hst, hreq, -, -⟩ := alloc_align_success hp
    have hcap : s.capacity < 2 ^ 64 := by omega
    have ho1 : (s.alloc_align sz al).2.offset ≤ s.capacity :=
      alloc_align_offset_le hp hcap ho
    have hbuf1 : (s.alloc_align sz al).2.buf = s.buf := by rw [hst]
    have hcap1 : (s.alloc_align sz al).2.capacity = s.capacity := by rw [hst]
    have hoff1 : s.offset ≤ (s.alloc_align sz al).2.offset := by
      rw [hst]; simp only []; omega
    have hb1 : (s.alloc_align sz al).2.buf + (s.alloc_align sz al).2.capacity < 2 ^ 64 := by
      rw [hbuf1, hcap1]; exact hb
    have ho1' : (s.alloc_align sz al).2.offset ≤ (s.alloc_align sz al).2.capacity := by
      rw [hcap1]; exact ho1
    obtain ⟨g1, g2, g3, g4, g5⟩ := ih (s.alloc_align sz al).2 hrest hb1 ho1'
    refine ⟨g1.trans hbuf1, g2.trans hcap1, le_trans hoff1 g3, ?_, ?_⟩
    · rw [hcap1] at g4; exact g4
    · intro x hx
      have hx1 : x < (s.alloc_align sz al).2.buf + (s.alloc_align sz al).2.offset := by
        rw [hbuf1]; omega
      rw [g5 x hx1]
      exact alloc_align_mem_below hp hb ho x hx

theorem lifo_aux (rs : List (Nat × Nat)) : ∀ s : Stack,
    (Stack.allocSeq s rs).1 = true →
    s.buf + s.capacity < 2 ^ 64 → s.offset ≤ s.capacity →
    s.previous_offset ≤ s.offset →
    (Stack.popN (Stack.allocSeq s rs).2 rs.length).1 = true ∧
    (Stack.popN (Stack.allocSeq s rs).2 rs.length).2.offset = s.offset ∧
    (Stack.popN (Stack.allocSeq s rs).2 rs.length).2.previous_offset = s.previous_offset := by
  induction rs with
  | nil =>
    intro s _ _ _ _
    exact ⟨rfl, rfl, rfl⟩
  | cons r rest ih =>
    obtain ⟨sz, al⟩ := r
    intro s hflag hb ho hprev
    rw [allocSeq_cons] at hflag ⊢
    simp only [Bool.and_eq_true, bne_iff_ne, ne_eq] at hflag
    obtain ⟨hp, hrest⟩ := hflag
    obtain ⟨-, hst, hreq, -, -⟩ := alloc_align_success hp
    have hcap : s.capacity < 2 ^ 64 := by omega
    rw [usize_sub_eq_sub ho hcap] at hreq
    have hpad : stackHeaderSize ≤ allocPadding s al :=
      padding_ge_header (s.buf + s.offset) al stackHeaderSize stackHeaderAlign
    have hbuf1 : (s.alloc_align sz al).2.buf = s.buf := by rw [hst]
    have hcap1 : (s.alloc_align sz al).2.capacity = s.capacity := by rw [hst]
    have hprev1 : (s.alloc_align sz al).2.previous_offset
        = s.offset + allocPadding s al := by rw [hst]
    have hoff1 : (s.alloc_align sz al).2.offset
        = s.offset + allocPadding s al + sz := by rw [hst]
    have hb1 : (s.alloc_align sz al).2.buf + (s.alloc_align sz al).2.capacity < 2 ^ 64 := by
      rw [hbuf1, hcap1]; exact hb
    have ho1 : (s.alloc_align sz al).2.offset ≤ (s.alloc_align sz al).2.capacity := by
      rw [hcap1]; exact alloc_align_offset_le hp hcap ho
    have hprevle1 : (s.alloc_align sz al).2.previous_offset
        ≤ (s.alloc_align sz al).2.offset := by
      rw [hprev1, hoff1]; omega
    -- Unwind the inner allocations with the induction hypothesis.
    obtain ⟨ih1, ih2, ih3⟩ := ih (s.alloc_align sz al).2 hrest hb1 ho1 hprevle1
    obtain ⟨sp1, sp2, sp3, sp4, sp5⟩ := allocSeq_props rest (s.alloc_align sz al).2 hrest hb1 ho1
    -- State after the inner pops.
    obtain ⟨pm, pb, pc⟩ :=
      popN_state (Stack.allocSeq (s.alloc_align sz al).2 rest).2 rest.length
    simp only [List.length_cons, Stack.popN]
    -- The final pop reads the header written by the outer allocation.
    have htprev : (Stack.popN (Stack.allocSeq (s.alloc_align sz al).2 rest).2
        rest.length).2.previous_offset = s.offset + allocPadding s al := by
      rw [ih3, hprev1]
    have htbuf : (Stack.popN (Stack.allocSeq (s.alloc_align sz al).2 rest).2
        rest.length).2.buf = s.buf := by
      rw [pb, sp1, hbuf1]
    have hne : (Stack.popN (Stack.allocSeq (s.alloc_align sz al).2 rest).2
        rest.length).2.previous_offset ≠ 0 := by
      rw [htprev]; simp only [stackHeaderSize] at hpad; omega
    -- Header address and loads.
    have hnb : s.buf + s.offset + allocPadding s al < 2 ^ 64 := by omega
    have hhl := alloc_align_header_loads hp hb ho (by omega)
    have hpad24 : 24 ≤ allocPadding s al := by
      simpa [stackHeaderSize] using hpad
    have hmemagree : ∀ x,
        x < s.buf + (s.offset + allocPadding s al + sz) →
        (Stack.popN (Stack.allocSeq (s.alloc_align sz al).2 rest).2
          rest.length).2.mem x = (s.alloc_align sz al).2.mem x := by
      intro x hx
      rw [pm]
      refine sp5 x ?_
      rw [hbuf1, hoff1]
      omega
    have hhdr : usize_sub (s.buf + s.offset + allocPadding s al) stackHeaderSize
        = s.buf + s.offset + allocPadding s al - stackHeaderSize :=
      usize_sub_eq_sub (by omega) hnb
    have hload1 : load64 (Stack.popN (Stack.allocSeq (s.alloc_align sz al).2 rest).2
        rest.length).2.mem
        (usize_sub (s.buf + s.offset + allocPadding s al) stackHeaderSize + hdrPaddingOff)
        = allocPadding s al := by
      refine Eq.trans (load64_congr fun x hx1 hx2 => hmemagree x ?_) hhl.1
      rw [hhdr] at hx2
      simp only [hdrPaddingOff, stackHeaderSize] at hx2
      omega
    have hload2 : load64 (Stack.popN (Stack.allocSeq (s.alloc_align sz al).2 rest).2
        rest.length).2.mem
        (usize_sub (s.buf + s.offset + allocPadding s al) stackHeaderSize + hdrPrevOff)
        = s.previous_offset := by
      refine Eq.trans (load64_congr fun x hx1 hx2 => hmemagree x ?_) hhl.2
      rw [hhdr] at hx2
      simp only [hdrPrevOff, stackHeaderSize] at hx2
      omega
    -- Evaluate the final pop.
    have hne0 : s.offset + allocPadding s al ≠ 0 := by omega
    have heq : usize_sub (s.offset + allocPadding s al) (allocPadding s al) = s.offset := by
      rw [usize_sub_eq_sub (Nat.le_add_left _ _) (by omega)]
      omega
    simp only [Stack.pop, htprev, htbuf, if_neg hne0, ← Nat.add_assoc, hload1, hload2,
      ih1, Bool.true_and, heq]
    exact ⟨trivial, trivial, trivial⟩

/-! ### Alignment lemmas for the padding computation -/

theorem align_mod (x a : Nat) (ha : 0 < a) :
    (x + (if x % a ≠ 0 then a - x % a else 0)) % a = 0 := by
  by_cases h : x % a = 0
  · simp [h]
  · have hlt : x % a < a := Nat.mod_lt _ ha
    rw [if_pos h, Nat.add_mod, Nat.mod_eq_of_lt (show a - x % a < a by omega),
      show x % a + (a - x % a) = a by omega, Nat.mod_self]

theorem align_mod2 (x a p : Nat) (ha : 0 < a) :
    (x + (if (x + p) % a ≠ 0 then p + (a - (x + p) % a) else p)) % a = 0 := by
  by_cases h : (x + p) % a = 0
  · rw [if_neg (by simpa using h)]
    exact h
  · rw [if_pos h, ← Nat.add_assoc]
    have := align_mod (x + p) a ha
    rwa [if_pos h] at this

theorem padding_header_aligned (addr hs k j : Nat) :
    (addr + yo_padding_with_header addr (2 ^ k) hs (2 ^ j) - hs) % 2 ^ j = 0 := by
  simp only [yo_padding_with_header, Nat.and_pow_two_sub_one_eq_mod]
  rw [← Nat.add_assoc, Nat.add_sub_cancel]
  exact align_mod2 addr (2 ^ j)
    (if addr % 2 ^ k ≠ 0 then 2 ^ k - addr % 2 ^ k else 0)
    (Nat.pos_pow_of_pos j (by omega))

/-! ### Concrete example states -/

/-- An empty stack over an 8-aligned buffer of 100 bytes, all bytes zero. -/
def exampleStack : Stack :=
  { buf := 8, capacity := 100, offset := 0, previous_offset := 0, mem := fun _ => 0 }

/-- The stack after one successful `alloc_align(64, 8)`: the block sits at
address 32 (padding 24), `previous_offset = 24`, `offset = 88`. -/
def exampleStackAfterAlloc : Stack :=
  (exampleStack.alloc_align 64 8).2

/-- A stack with in-range offsets over adversarial memory contents (every
byte is 37). -/
def exampleGarbageStack : Stack :=
  { buf := 8, capacity := 100, offset := 50, previous_offset := 40, mem := fun _ => 37 }

/-- A manager whose stack holds one live 64-byte block. -/
def exampleManager : MemoryManager :=
  { allocation_count := 1, allocator := exampleStackAfterAlloc }

/-! ### Claim theorems -/

/-- Claim C1: every operation was claimed to preserve
`0 ≤ previous_offset ≤ offset ≤ capacity`.  The in-place path of
`realloc_align` refutes this: from the reachable state with
`previous_offset = 24 ≤ offset = 88 ≤ capacity = 100` (one 64-byte block),
`realloc_align` on the top block with new size 100 succeeds (returns the
block) and leaves `offset = 124 > capacity = 100`, because the source sets
`offset = previous_offset + new_size_bytes` with no capacity check. -/
theorem claim1_invariant_broken_by_realloc :
    exampleStackAfterAlloc.previous_offset = 24 ∧
    exampleStackAfterAlloc.offset = 88 ∧
    exampleStackAfterAlloc.capacity = 100 ∧
    (exampleStackAfterAlloc.realloc_align 32 100 8).1 = 32 ∧
    (exampleStackAfterAlloc.realloc_align 32 100 8).2.offset = 124 ∧
    (exampleStackAfterAlloc.realloc_align 32 100 8).2.capacity = 100 := by
  decide

/-- Claim C2 counterexample: part (a) of the claim fails.  With `addr = 0`,
`alignment = 16`, `header_size = 24`, `header_alignment = 8` the computed
padding is 24, and `addr + padding = 24` is not a multiple of 16: the
two-stage computation aligns the data block first and then destroys that
alignment by adding the header padding and size. -/
theorem claim2_counterexample :
    yo_padding_with_header 0 (2 ^ 4) 24 (2 ^ 3) = 24 ∧
    (0 + yo_padding_with_header 0 (2 ^ 4) 24 (2 ^ 3)) % 2 ^ 4 ≠ 0 := by
  decide

/-- Claim C2 (amended): for power-of-two `alignment = 2 ^ k` and
`header_alignment = 2 ^ j`, the padding always satisfies (c)
`padding ≥ header_size` and (b) `addr + padding - header_size` is a
multiple of `header_alignment`; part (a), `addr + padding` a multiple of
`alignment`, holds under the additional conditions that `alignment`
divides `header_size` and `header_alignment` (which cover every call site
in the stack allocator with `alignment ≤ 8`). -/
theorem claim2_amended (addr hs k j : Nat) :
    hs ≤ yo_padding_with_header addr (2 ^ k) hs (2 ^ j) ∧
    (addr + yo_padding_with_header addr (2 ^ k) hs (2 ^ j) - hs) % 2 ^ j = 0 ∧
    (2 ^ k ∣ hs → (2 ^ k : Nat) ∣ 2 ^ j →
      (addr + yo_padding_with_header addr (2 ^ k) hs (2 ^ j)) % 2 ^ k = 0) := by
  refine ⟨padding_ge_header addr (2 ^ k) hs (2 ^ j),
    padding_header_aligned addr hs k j, fun h1 h2 => ?_⟩
  have hge : hs ≤ yo_padding_with_header addr (2 ^ k) hs (2 ^ j) :=
    padding_ge_header addr (2 ^ k) hs (2 ^ j)
  have hb := padding_header_aligned addr hs k j
  have hdvdj : (2 ^ j : Nat) ∣ (addr + yo_padding_with_header addr (2 ^ k) hs (2 ^ j) - hs) :=
    Nat.dvd_of_mod_eq_zero hb
  have hdvdk : (2 ^ k : Nat) ∣ (addr + yo_padding_with_header addr (2 ^ k) hs (2 ^ j) - hs) :=
    dvd_trans h2 hdvdj
  have hsum : addr + yo_padding_with_header addr (2 ^ k) hs (2 ^ j)
      = (addr + yo_padding_with_header addr (2 ^ k) hs (2 ^ j) - hs) + hs := by
    omega
  rw [hsum]
  exact Nat.dvd_iff_mod_eq_zero.mp (Nat.dvd_add hdvdk h1)

/-- Claim C2 amended witness at `addr = 5`, `alignment = 8`,
`header_size = 24`, `header_alignment = 8`. -/
theorem claim2_amended_witness :
    24 ≤ yo_padding_with_header 5 (2 ^ 3) 24 (2 ^ 3) ∧
    (5 + yo_padding_with_header 5 (2 ^ 3) 24 (2 ^ 3) - 24) % 2 ^ 3 = 0 ∧
    (5 + yo_padding_with_header 5 (2 ^ 3) 24 (2 ^ 3)) % 2 ^ 3 = 0 :=
  ⟨(claim2_amended 5 24 3 3).1, (claim2_amended 5 24 3 3).2.1,
    (claim2_amended 5 24 3 3).2.2 (by decide) (by decide)⟩

/-- Claim C3: `header_of` on a pointer returned by `alloc_align` was
claimed to return the header whose `capacity` equals the requested size.
The source computes `block + sizeof(StackHeader)` instead of
`block - sizeof(StackHeader)`: on the block at address 32 returned by
`alloc_align(64, 8)` it yields the non-null address 56 inside the freshly
zeroed data block, so `size_of` reads capacity 0 instead of 64, while the
actual header (at `32 - 24`, capacity field at `32 - 24 + 8 = 16`) does
hold 64. -/
theorem claim3_header_of_wrong_side :
    (exampleStack.alloc_align 64 8).1 = 32 ∧
    exampleStackAfterAlloc.header_of 32 = 56 ∧
    exampleStackAfterAlloc.size_of 32 = 0 ∧
    load64 exampleStackAfterAlloc.mem (32 - stackHeaderSize + hdrCapacityOff) = 64 := by
  decide

/-- Claim C4: from any state satisfying the numeric invariant (with the
buffer inside the 64-bit address space), a sequence of successful
`alloc_align` calls followed by the same number of `pop` calls succeeds
and restores `offset` and `previous_offset` to their pre-sequence
values. -/
theorem claim4_lifo_round_trip (s : Stack) (reqs : List (Nat × Nat))
    (hflag : (Stack.allocSeq s reqs).1 = true)
    (hb : s.buf + s.capacity < 2 ^ 64)
    (ho : s.offset ≤ s.capacity)
    (hprev : s.previous_offset ≤ s.offset) :
    (Stack.popN (Stack.allocSeq s reqs).2 reqs.length).1 = true ∧
    (Stack.popN (Stack.allocSeq s reqs).2 reqs.length).2.offset = s.offset ∧
    (Stack.popN (Stack.allocSeq s reqs).2 reqs.length).2.previous_offset
      = s.previous_offset :=
  lifo_aux reqs s hflag hb ho hprev

/-- Claim C4 witness: two allocations (16 bytes at alignment 8, then 8
bytes at alignment 4) on the empty example stack, followed by two pops,
return the offsets to 0. -/
theorem claim4_witness :
    (Stack.popN (Stack.allocSeq exampleStack [(16, 8), (8, 4)]).2 2).1 = true ∧
    (Stack.popN (Stack.allocSeq exampleStack [(16, 8), (8, 4)]).2 2).2.offset = 0 ∧
    (Stack.popN (Stack.allocSeq exampleStack [(16, 8), (8, 4)]).2 2).2.previous_offset
      = 0 :=
  claim4_lifo_round_trip exampleStack [(16, 8), (8, 4)]
    (by decide) (by decide) (by decide) (by decide)

/-- Claim C5: the claim says the in-place reallocation path performs the
same capacity check as `alloc_align` and updates the header capacity
field.  The source does neither: on the example stack
(`previous_offset = 24`, `capacity = 100`), reallocating the top block to
100 bytes succeeds in place although `24 + 100 > 100`, and the capacity
field of the top header (address 16) still holds 64, not 100. -/
theorem claim5_realloc_unchecked :
    32 = exampleStackAfterAlloc.top ∧
    (exampleStackAfterAlloc.realloc_align 32 100 8).1 = 32 ∧
    (exampleStackAfterAlloc.realloc_align 32 100 8).2.offset = 124 ∧
    exampleStackAfterAlloc.previous_offset + 100 > exampleStackAfterAlloc.capacity ∧
    load64 (exampleStackAfterAlloc.realloc_align 32 100 8).2.mem
      (32 - stackHeaderSize + hdrCapacityOff) = 64 := by
  decide

/-- Claim C6: `virtual_alloc` was claimed to return the OS buffer exactly
when the reservation call succeeds and null exactly when it fails.  The
UNIX branch of the source inverts the `MAP_FAILED` test
(`if (memory != MAP_FAILED) { memory = NULL; }`): a successful `mmap`
(here returning address 4096) produces null, and a failed one returns the
non-null `MAP_FAILED` value. -/
theorem claim6_virtual_alloc_inverted :
    yo_memory_virtual_alloc_unix 4096 = 0 ∧
    yo_memory_virtual_alloc_unix MAP_FAILED = MAP_FAILED ∧
    MAP_FAILED ≠ 0 := by
  decide

/-- Claim C7: the manager reallocation delegates to the stack
`realloc_align` (same returned pointer, same resulting stack) and bumps
`allocation_count` exactly when the returned pointer differs from
`block`; in particular an in-place reallocation of the top block with a
nonzero size leaves the counter unchanged. -/
theorem claim7_manager_realloc (m : MemoryManager) (block new_size_bytes alignment : Nat) :
    (m.realloc block new_size_bytes alignment).1
      = (m.allocator.realloc_align block new_size_bytes alignment).1 ∧
    (m.realloc block new_size_bytes alignment).2.allocator
      = (m.allocator.realloc_align block new_size_bytes alignment).2 ∧
    (m.realloc block new_size_bytes alignment).2.allocation_count
      = m.allocation_count
        + (if (m.allocator.realloc_align block new_size_bytes alignment).1 = block
           then 0 else 1) ∧
    (new_size_bytes ≠ 0 → block = m.allocator.top →
      (m.realloc block new_size_bytes alignment).1 = block ∧
      (m.realloc block new_size_bytes alignment).2.allocation_count
        = m.allocation_count) := by
  by_cases hne : (m.allocator.realloc_align block new_size_bytes alignment).1 = block
  · have hres : m.realloc block new_size_bytes alignment
        = ((m.allocator.realloc_align block new_size_bytes alignment).1,
           ⟨m.allocation_count,
            (m.allocator.realloc_align block new_size_bytes alignment).2⟩) := by
      simp [MemoryManager.realloc, hne]
    rw [hres]
    exact ⟨rfl, rfl, by rw [if_pos hne]; simp, fun hns htop => ⟨hne, rfl⟩⟩
  · have hres : m.realloc block new_size_bytes alignment
        = ((m.allocator.realloc_align block new_size_bytes alignment).1,
           ⟨m.allocation_count + 1,
            (m.allocator.realloc_align block new_size_bytes alignment).2⟩) := by
      simp [MemoryManager.realloc, hne]
    rw [hres]
    refine ⟨rfl, rfl, by rw [if_neg hne], fun hns htop => absurd ?_ hne⟩
    -- With a nonzero size and the top block, the source takes the
    -- in-place path and returns the block itself.
    simp [Stack.realloc_align, hns, htop]

/-- Claim C7 witness: reallocating the top block of the example manager
in place (size 8, alignment 8). -/
theorem claim7_witness :
    (exampleManager.realloc 32 8 8).1
      = (exampleManager.allocator.realloc_align 32 8 8).1 ∧
    (exampleManager.realloc 32 8 8).2.allocator
      = (exampleManager.allocator.realloc_align 32 8 8).2 ∧
    (exampleManager.realloc 32 8 8).2.allocation_count
      = exampleManager.allocation_count
        + (if (exampleManager.allocator.realloc_align 32 8 8).1 = 32 then 0 else 1) ∧
    ((8 : Nat) ≠ 0 → 32 = exampleManager.allocator.top →
      (exampleManager.realloc 32 8 8).1 = 32 ∧
      (exampleManager.realloc 32 8 8).2.allocation_count
        = exampleManager.allocation_count) :=
  claim7_manager_realloc exampleManager 32 8 8

/-- Claim C8: reallocating a live block to size zero goes through the
`clear_at` path of the stack (freeing it), returns null, and the manager
counter is incremented rather than decremented: afterwards
`allocation_count` is positive while the stack is empty
(`previous_offset = 0`), so the counter exceeds the number of live
blocks. -/
theorem claim8_realloc_zero_increments (m : MemoryManager) (block alignment : Nat)
    (hb : block ≠ 0)
    (htop : block = m.allocator.buf + m.allocator.previous_offset)
    (_hlive : m.allocator.previous_offset ≠ 0)
    (hchain : load64 m.allocator.mem (usize_sub block stackHeaderSize + hdrPrevOff) = 0) :
    (m.realloc block 0 alignment).1 = 0 ∧
    (m.realloc block 0 alignment).2.allocation_count = m.allocation_count + 1 ∧
    (m.realloc block 0 alignment).2.allocator = (m.allocator.clear_at block).2 ∧
    (m.allocator.clear_at block).1 = true ∧
    (m.realloc block 0 alignment).2.allocator.previous_offset = 0 := by
  have hcond : ¬(block < m.allocator.buf
      ∨ block > m.allocator.buf + m.allocator.previous_offset) := by
    omega
  have hclear1 : (m.allocator.clear_at block).1 = true := by
    simp [Stack.clear_at, hb, hcond]
  have hclear2 : (m.allocator.clear_at block).2.previous_offset = 0 := by
    simp [Stack.clear_at, hb, hcond, hchain]
  have hres : m.realloc block 0 alignment
      = (0, ⟨m.allocation_count + 1, (m.allocator.clear_at block).2⟩) := by
    simp [MemoryManager.realloc, Stack.realloc_align, Ne.symm hb]
  exact ⟨by rw [hres], by rw [hres], by rw [hres], hclear1, by rw [hres]; exact hclear2⟩

/-- Claim C8 witness: the example manager (counter 1, one live 64-byte
block at address 32) after `realloc(block, 0)`. -/
theorem claim8_witness :
    (exampleManager.realloc 32 0 8).1 = 0 ∧
    (exampleManager.realloc 32 0 8).2.allocation_count
      = exampleManager.allocation_count + 1 ∧
    (exampleManager.realloc 32 0 8).2.allocator
      = (exampleManager.allocator.clear_at 32).2 ∧
    (exampleManager.allocator.clear_at 32).1 = true ∧
    (exampleManager.realloc 32 0 8).2.allocator.previous_offset = 0 :=
  claim8_realloc_zero_increments exampleManager 32 8
    (by decide) (by decide) (by decide) (by decide)

/-- Claim C9: whenever `clear_at` succeeds on a state with
`previous_offset ≤ offset` (buffer inside the address space), the new
offset is at most the old `previous_offset` and at most the old `offset`,
whatever bytes the supposed header holds: the two clamped subtractions
cannot wrap. -/
theorem claim9_clear_at_monotone (s : Stack) (block : Nat)
    (hinv : s.previous_offset ≤ s.offset)
    (hbound : s.buf + s.previous_offset < 2 ^ 64)
    (hsucc : (s.clear_at block).1 = true) :
    (s.clear_at block).2.offset ≤ s.previous_offset ∧
    (s.clear_at block).2.offset ≤ s.offset := by
  by_cases h0 : block = 0
  · simp [Stack.clear_at, h0] at hsucc
  · by_cases hrange : block < s.buf ∨ block > s.buf + s.previous_offset
    · simp [Stack.clear_at, h0, hrange] at hsucc
    · push_neg at hrange
      obtain ⟨hlo, hhi⟩ := hrange
      have hcond : ¬(block < s.buf ∨ block > s.buf + s.previous_offset) := by
        omega
      have hform : (s.clear_at block).2.offset
          = yo_u64_no_wrap_sub
              (yo_u64_no_wrap_sub block
                (load64 s.mem (usize_sub block stackHeaderSize + hdrPaddingOff)))
              s.buf := by
        simp only [Stack.clear_at, if_neg h0, if_neg hcond]
      have hx : yo_u64_no_wrap_sub block
          (load64 s.mem (usize_sub block stackHeaderSize + hdrPaddingOff)) ≤ block :=
        no_wrap_sub_le _ _
      have hfin : (s.clear_at block).2.offset ≤ s.previous_offset := by
        rw [hform, no_wrap_sub_eq (by omega) (by omega)]
        omega
      exact ⟨hfin, le_trans hfin hinv⟩

/-- Claim C9 witness: clearing at the in-range but bogus pointer 30 of the
garbage-filled stack (offset 50, previous offset 40) succeeds and yields
an offset of at most 40. -/
theorem claim9_witness :
    (exampleGarbageStack.clear_at 30).2.offset ≤ exampleGarbageStack.previous_offset ∧
    (exampleGarbageStack.clear_at 30).2.offset ≤ exampleGarbageStack.offset :=
  claim9_clear_at_monotone exampleGarbageStack 30 (by decide) (by decide) (by decide)

/-- Claim C10: an arena allocation of zero bytes returns null and leaves
the arena (in particular its offset) unchanged, before any capacity or
alignment processing. -/
theorem claim10_arena_alloc_zero (arena : yo_Arena) (alignment : Nat) :
    yo_arena_alloc_align arena 0 alignment = (0, arena) := by
  simp [yo_arena_alloc_align]

end Yoneda
